import Mathlib

/-!
# Simple-Tiling: a shallow embedding of the tiling engine

This file embeds the core of the Simple-Tiling GNOME Shell extension
(`extension.ts`, `managers/timeoutRegistry.ts`, `managers/windowState.ts`)
in Lean 4 and proves properties of the embedded code.

Conventions:
* JavaScript numbers used as pixel coordinates are modelled as `Int`;
  `Math.floor(a / b)` is `Int.fdiv a b`.
* Window handles are modelled by the structure `MWindow`, carrying exactly
  the attributes the embedded code reads.
* The mutating layout pass `_tileWindows`/`_splitLayout` is embedded as a
  pure function returning the list of `(window, rectangle)` assignments it
  would apply via `move_resize_frame`.
-/

namespace SimpleTiling

/-- A frame rectangle `{x, y, width, height}` as used throughout the source. -/
structure Rect where
  x : Int
  y : Int
  w : Int
  h : Int
deriving DecidableEq, Repr

/-- Point membership in a rectangle: the half-open pixel box
`[x, x+w) × [y, y+h)`. -/
def RectPt (r : Rect) (px py : Int) : Prop :=
  r.x ≤ px ∧ px < r.x + r.w ∧ r.y ≤ py ∧ py < r.y + r.h

instance (r : Rect) (px py : Int) : Decidable (RectPt r px py) := by
  unfold RectPt; exact inferInstance

/-- Two rectangles are disjoint: no pixel lies in both. -/
def RectDisj (a b : Rect) : Prop :=
  ∀ px py, RectPt a px py → RectPt b px py → False

/-- `a` is contained in `b` as a set of pixels. -/
def RectSub (a b : Rect) : Prop :=
  ∀ px py, RectPt a px py → RectPt b px py

/-- A list of rectangles covers `a` exactly: a pixel is in `a` iff it is in
some rectangle of the list. -/
def CoversExactly (rs : List Rect) (a : Rect) : Prop :=
  ∀ px py, RectPt a px py ↔ ∃ r, r ∈ rs ∧ RectPt r px py

/-- `_splitLayout` (extension.ts): the three areas produced by one split of
`area`, choosing the axis by comparing width and height.  The first and third
components are `primaryArea` and `secondaryArea` verbatim from the source
(`gap = Math.floor(innerGap / 2)`, primary extent `floor(dim / 2) - gap`);
the middle component is the inner-gap strip of thickness `G` left between
them, recorded for the coverage statements. -/
def splitAreas (G : Int) (a : Rect) : Rect × Rect × Rect :=
  let gap := Int.fdiv G 2
  if a.w > a.h then
    let pw := Int.fdiv a.w 2 - gap
    (⟨a.x, a.y, pw, a.h⟩,
     ⟨a.x + pw, a.y, G, a.h⟩,
     ⟨a.x + pw + G, a.y, a.w - pw - G, a.h⟩)
  else
    let ph := Int.fdiv a.h 2 - gap
    (⟨a.x, a.y, a.w, ph⟩,
     ⟨a.x, a.y + ph, a.w, G⟩,
     ⟨a.x, a.y + ph + G, a.w, a.h - ph - G⟩)

/-- `_splitLayout` (extension.ts, lines 1050–1101) as a pure function: the
ordered list of `(window, rectangle)` assignments the recursion applies.
One window occupies the whole area; otherwise the first window receives the
primary area of the split and the rest recurse on the secondary area. -/
def splitLayout {α : Type} (G : Int) : List α → Rect → List (α × Rect)
  | [], _ => []
  | [w], a => [(w, a)]
  | w :: v :: rest, a =>
    (w, (splitAreas G a).1) :: splitLayout G (v :: rest) (splitAreas G a).2.2

/-- The inner-gap strips left by the recursion of `_splitLayout`: one strip
of thickness `G` per performed split. -/
def splitGaps {α : Type} (G : Int) : List α → Rect → List Rect
  | [], _ => []
  | [_], _ => []
  | _ :: v :: rest, a =>
    (splitAreas G a).2.1 :: splitGaps G (v :: rest) (splitAreas G a).2.2

/-- The geometry part of `_tileWindows` (extension.ts, lines 1195–1224) as a
pure function over the filtered window list: one window gets the full inner
area; with two or more windows the primary always receives the left column
of width `floor(w / 2) - floor(G / 2)` (the top-level split is horizontal
unconditionally) and the rest are laid out by `_splitLayout` on the stack
area. -/
def tileGeometry {α : Type} (G : Int) (ws : List α) (inner : Rect) :
    List (α × Rect) :=
  match ws with
  | [] => []
  | [w] => [(w, inner)]
  | w :: v :: rest =>
    let gap := Int.fdiv G 2
    let pw := Int.fdiv inner.w 2 - gap
    (w, ⟨inner.x, inner.y, pw, inner.h⟩) ::
      splitLayout G (v :: rest)
        ⟨inner.x + pw + G, inner.y, inner.w - pw - G, inner.h⟩

/-- The inner-gap strips of the full pass: the strip of the top-level
(always horizontal) split, then the strips of the recursive splits. -/
def tileGaps {α : Type} (G : Int) (ws : List α) (inner : Rect) : List Rect :=
  match ws with
  | [] => []
  | [_] => []
  | _ :: v :: rest =>
    let gap := Int.fdiv G 2
    let pw := Int.fdiv inner.w 2 - gap
    ⟨inner.x + pw, inner.y, G, inner.h⟩ ::
      splitGaps G (v :: rest)
        ⟨inner.x + pw + G, inner.y, inner.w - pw - G, inner.h⟩

/-- Fitting precondition for the recursion of `_splitLayout` on `n` windows:
at every split the primary extent is nonnegative and primary plus gap fit in
the split dimension (so the three strips of the split tile the area). -/
def fitsB (G : Int) : Nat → Rect → Bool
  | 0, _ => true
  | 1, _ => true
  | n + 2, a =>
    let t := splitAreas G a
    (if a.w > a.h then decide (0 ≤ t.1.w) && decide (t.1.w + G ≤ a.w)
     else decide (0 ≤ t.1.h) && decide (t.1.h + G ≤ a.h)) &&
    fitsB G (n + 1) t.2.2

/-- Fitting precondition for the full `_tileWindows` geometry pass on `n`
windows: the top-level horizontal split fits, and the stack area fits the
remaining `n - 1` windows. -/
def tileFitsB (G : Int) : Nat → Rect → Bool
  | 0, _ => true
  | 1, _ => true
  | n + 2, inner =>
    let gap := Int.fdiv G 2
    let pw := Int.fdiv inner.w 2 - gap
    decide (0 ≤ pw) && decide (pw + G ≤ inner.w) &&
    fitsB G (n + 1) ⟨inner.x + pw + G, inner.y, inner.w - pw - G, inner.h⟩

/-- The inner area of `_tileWindows`: the monitor work area shrunk by the
outer gaps (extension.ts, lines 1177–1182). -/
def innerAreaOf (workArea : Rect) (outerGapH outerGapV : Int) : Rect :=
  ⟨workArea.x + outerGapH, workArea.y + outerGapV,
   workArea.w - 2 * outerGapH, workArea.h - 2 * outerGapV⟩

/-- A window handle, carrying the host attributes the embedded code reads.
`hasDisplay` models `win.get_display() !== null` (false once the host has
destroyed the window). -/
structure MWindow where
  id : Nat
  hasDisplay : Bool
  monitor : Int
  minimized : Bool
  maximized : Bool
  typeNormal : Bool
  onAllWorkspaces : Bool
  attachedDialog : Bool
  transientFor : Bool
  skipTaskbar : Bool
  wmClass : Option String
  appId : Option String
  frameW : Int
  frameH : Int
  compositorValid : Bool
deriving DecidableEq, Repr

/-- JavaScript `.toLowerCase()` on identifier strings: lower-case every
character (written structurally over the character list, which is what
`String.toLower` does). -/
def jsToLower (s : String) : String := String.mk (s.data.map Char.toLower)

/-- `_isException` (extension.ts, lines 563–568): the lower-cased class or
app identifier is in the exception list (a null identifier reads as `""`). -/
def isException (exceptions : List String) (win : MWindow) : Bool :=
  exceptions.contains (jsToLower (win.wmClass.getD "")) ||
  exceptions.contains (jsToLower (win.appId.getD ""))

/-- `_isTileable` (extension.ts, lines 579–590). -/
def isTileable (exceptions : List String) (win : MWindow) : Bool :=
  !win.minimized &&
  win.typeNormal &&
  !win.onAllWorkspaces &&
  !win.attachedDialog &&
  !win.transientFor &&
  !win.skipTaskbar &&
  !isException exceptions win

/-- `_isWindowReady` (extension.ts, lines 592–599): valid display handle,
non-zero frame size, non-empty class identifier and a compositor-side
handle. -/
def isWindowReady (win : MWindow) : Bool :=
  win.hasDisplay &&
  (decide (win.frameW > 0) && decide (win.frameH > 0)) &&
  (match win.wmClass with
   | none => false
   | some c => decide (c ≠ "")) &&
  win.compositorValid

/-- `_isWindowValid` (extension.ts, lines 605–607). -/
def isWindowValid (win : MWindow) : Bool := win.hasDisplay

/-- Modelled from the spec: `WorkspaceTracker.addWindow` (the file
`managers/workspaceTracker.ts` is not among the sources) "appends to the
appropriate list if not already present (idempotent; checked by
membership)". -/
def trackerAdd (lst : List MWindow) (win : MWindow) : List MWindow :=
  if win ∈ lst then lst else lst ++ [win]

/-- Modelled from the spec: `WorkspaceTracker.removeWindow` (the file
`managers/workspaceTracker.ts` is not among the sources) "removes from
whichever list contains it (idempotent no-op if absent)". -/
def trackerRemove (tiled exceptions : List MWindow) (win : MWindow) :
    List MWindow × List MWindow :=
  (tiled.erase win, exceptions.erase win)

/-- The configuration flags read during a layout pass. -/
structure PassSettings where
  tilingEnabled : Bool
  respectMaximized : Bool
  exceptionsAlwaysCenter : Bool
  exceptionsAlwaysOnTop : Bool
deriving DecidableEq, Repr

/-- One step of the exception recheck of `_tileWindows` (extension.ts,
lines 1114–1137), acting on `(tiled, exceptions, centered)`: a stale window
is removed from tracking; a window now matching the exception set is moved
from `tiled` to `exceptions` and, when the relevant settings are on, sent
to `_centerWindow` (collected in `centered`). -/
def recheckStep (S : PassSettings) (exceptions : List String)
    (acc : List MWindow × List MWindow × List MWindow) (win : MWindow) :
    List MWindow × List MWindow × List MWindow :=
  if !isWindowValid win then
    ((trackerRemove acc.1 acc.2.1 win).1, (trackerRemove acc.1 acc.2.1 win).2,
     acc.2.2)
  else if isException exceptions win then
    let removed := trackerRemove acc.1 acc.2.1 win
    let added := trackerAdd removed.2 win
    (removed.1, added,
     if S.tilingEnabled &&
        (S.exceptionsAlwaysCenter || S.exceptionsAlwaysOnTop) then
       acc.2.2 ++ [win]
     else acc.2.2)
  else acc

/-- The exception recheck of `_tileWindows`: fold `recheckStep` over a
shallow copy of the tiled list (`[...data.tiled]`). -/
def recheckExceptions (S : PassSettings) (exceptions : List String)
    (tiled exceptionsList : List MWindow) :
    List MWindow × List MWindow × List MWindow :=
  tiled.foldl (recheckStep S exceptions) (tiled, exceptionsList, [])

/-- The filter applied by `_tileWindows` before geometry (extension.ts,
lines 1139–1155): drop windows without a display, with a negative monitor
index, or minimized. -/
def tileWindowsFilter (win : MWindow) : Bool :=
  win.hasDisplay && decide (0 ≤ win.monitor) && !win.minimized

/-- The full `_tileWindows` pass (extension.ts, lines 1103–1225) as a pure
function: returns the new tiled list, the new exceptions list, the windows
sent to the centering path, and the geometry assignments. -/
def tileWindowsPass (S : PassSettings) (exceptions : List String) (G : Int)
    (inner : Rect) (tiled exceptionsList : List MWindow) :
    List MWindow × List MWindow × List MWindow × List (MWindow × Rect) :=
  let rechecked := recheckExceptions S exceptions tiled exceptionsList
  let windowsToTile := rechecked.1.filter tileWindowsFilter
  (rechecked.1, rechecked.2.1, rechecked.2.2,
   tileGeometry G windowsToTile inner)

/-- The scheduler-relevant state of a `Tiler`.  `tilingTimers` counts the
pending `tiling-queue` timers in the timeout registry; `executing` counts
the `_tileWindows` invocations currently on the call stack of the debounce
callback; `executedCount` counts `_tileWindows` invocations so far and
`scheduledCount` the timers ever scheduled by `queueTile`. -/
structure TilerState where
  tilingEnabled : Bool
  respectMaximized : Bool
  tiled : List MWindow
  tileInProgress : Bool
  tileTimeoutId : Option Nat
  tilingTimers : Nat
  executing : Nat
  executedCount : Nat
  scheduledCount : Nat
deriving DecidableEq, Repr

/-- `_hasMaximizedWindows` (extension.ts, lines 570–577): some window of
the active workspace tiled list is maximized and not minimized. -/
def hasMaximizedWindows (s : TilerState) : Bool :=
  s.tiled.any fun win => win.maximized && !win.minimized

/-- `queueTile` (extension.ts, lines 1012–1041): coalesce if a retile is in
progress or queued; gate on `tiling-enabled` and, when
`respect-maximized-windows` is set, on the absence of maximized windows;
otherwise set the reentrancy flag and schedule one debounce timer. -/
def queueTileFn (s : TilerState) : TilerState :=
  if s.tileInProgress || s.tileTimeoutId.isSome then s
  else if !s.tilingEnabled then s
  else if s.respectMaximized && hasMaximizedWindows s then s
  else
    { s with
      tileInProgress := true,
      tileTimeoutId := some s.scheduledCount,
      tilingTimers := s.tilingTimers + 1,
      scheduledCount := s.scheduledCount + 1 }

/-- The debounce timer fires: the registry wrapper removes the timer entry
and the callback enters `_tileWindows` (timeoutRegistry.ts, lines 26–35 and
extension.ts, lines 1031–1040). -/
def tileFireStart (s : TilerState) : TilerState :=
  if s.tilingTimers = 0 then s
  else
    { s with
      tilingTimers := s.tilingTimers - 1,
      executing := s.executing + 1,
      executedCount := s.executedCount + 1 }

/-- The debounce callback finishes: `_tileInProgress` and `_tileTimeoutId`
are cleared (extension.ts, lines 1034–1036). -/
def tileFireEnd (s : TilerState) : TilerState :=
  if s.executing = 0 then s
  else
    { s with
      executing := s.executing - 1,
      tileInProgress := false,
      tileTimeoutId := none }

/-- `tileNow` (extension.ts, lines 1043–1048): when tiling is enabled and
the reentrancy flag is clear, run `_tileWindows` synchronously. -/
def tileNowFn (s : TilerState) : TilerState :=
  if !s.tilingEnabled then s
  else if !s.tileInProgress then { s with executedCount := s.executedCount + 1 }
  else s

/-- One event of the scheduler: a `queueTile` call, the debounce timer
firing, the callback returning, a `tileNow` call, or an environment change
(settings or window list updated by the host). -/
inductive TilerStep : TilerState → TilerState → Prop
  | queue (s : TilerState) : TilerStep s (queueTileFn s)
  | fireStart (s : TilerState) : TilerStep s (tileFireStart s)
  | fireEnd (s : TilerState) : TilerStep s (tileFireEnd s)
  | now (s : TilerState) : TilerStep s (tileNowFn s)
  | env (s : TilerState) (enabled respect : Bool) (tiled : List MWindow) :
      TilerStep s
        { s with tilingEnabled := enabled, respectMaximized := respect,
                 tiled := tiled }

/-- States reachable from a freshly constructed `Tiler` (constructor,
extension.ts, lines 435–460: flag clear, no timer). -/
inductive TilerReachable : TilerState → Prop
  | init (enabled respect : Bool) (tiled : List MWindow) :
      TilerReachable
        { tilingEnabled := enabled, respectMaximized := respect,
          tiled := tiled, tileInProgress := false, tileTimeoutId := none,
          tilingTimers := 0, executing := 0, executedCount := 0,
          scheduledCount := 0 }
  | step {s t : TilerState} : TilerReachable s → TilerStep s t →
      TilerReachable t

/-- The scheduler invariant: at most one pending retile timer plus running
pass in total, and none of either while the reentrancy flag is clear. -/
def TilerInv (s : TilerState) : Prop :=
  s.tilingTimers + s.executing ≤ 1 ∧
  (s.tileInProgress = false → s.tilingTimers = 0 ∧ s.executing = 0)

/-- `TimeoutRegistry` (timeoutRegistry.ts): an insertion-ordered map from
registry ids to `{sourceId, name}` entries, plus the next fresh id. -/
structure TimeoutEntry where
  sourceId : Nat
  name : String
deriving DecidableEq, Repr

structure RegistryState where
  timeouts : List (Nat × TimeoutEntry)
  nextId : Nat
deriving DecidableEq, Repr

/-- `TimeoutRegistry.add` (timeoutRegistry.ts, lines 26–35): register the
host timer under a fresh registry id.  `sourceId` is the id the host's
`timeout_add` returned. -/
def registryAdd (r : RegistryState) (sourceId : Nat) (name : String) :
    Nat × RegistryState :=
  (r.nextId,
   { timeouts := r.timeouts ++ [(r.nextId, ⟨sourceId, name⟩)],
     nextId := r.nextId + 1 })

/-- `TimeoutRegistry.remove` (timeoutRegistry.ts, lines 48–59): when the id
is known, ask the host to remove the source — errors are caught and logged
— and delete the entry; unknown ids are a no-op. -/
def registryRemove (_host : Nat → Except String Unit) (r : RegistryState)
    (registryId : Nat) : RegistryState :=
  match r.timeouts.lookup registryId with
  | some _ =>
    { r with timeouts := r.timeouts.filter fun p => p.1 != registryId }
  | none => r

/-- The errors `clearAll` logs: one per host `source_remove` failure. -/
def clearAllErrors (host : Nat → Except String Unit) (r : RegistryState) :
    List String :=
  r.timeouts.foldl
    (fun errs p =>
      match host p.2.sourceId with
      | Except.ok _ => errs
      | Except.error e => errs ++ [e])
    []

/-- `TimeoutRegistry.clearAll` (timeoutRegistry.ts, lines 61–72) in the
`Except` monad: every host `source_remove` failure is caught and logged
(never re-thrown), then the map is cleared. -/
def clearAllE (host : Nat → Except String Unit) (r : RegistryState) :
    Except String (RegistryState × List String) :=
  Except.ok ({ r with timeouts := [] }, clearAllErrors host r)

/-- `TimeoutRegistry.count` (timeoutRegistry.ts, lines 74–76). -/
def registryCount (r : RegistryState) : Nat := r.timeouts.length

/-- `Tiler.disable` (extension.ts, lines 522–543), restricted to its effect
on the timeout registry: it calls `clearAll()` first. -/
def tilerDisableRegistry (host : Nat → Except String Unit)
    (r : RegistryState) : RegistryState :=
  match clearAllE host r with
  | Except.ok (r2, _) => r2
  | Except.error _ => r

/-- The fixed poll interval of `_waitForWindowReady` (extension.ts,
line 738). -/
def READY_POLL_INTERVAL_MS : Nat := 50

/-- The default attempt bound of `_waitForWindowReady` (extension.ts,
line 735). -/
def READY_MAX_ATTEMPTS : Nat := 20

/-- Outcome of the readiness poll of `_waitForWindowReady`, tagged with the
final value of the `attempts` counter. -/
inductive PollOutcome where
  | invoked (attempt : Nat)
  | droppedDestroyed (attempt : Nat)
  | droppedTimeout (attempt : Nat)
deriving DecidableEq, Repr

def PollOutcome.attempt : PollOutcome → Nat
  | PollOutcome.invoked k => k
  | PollOutcome.droppedDestroyed k => k
  | PollOutcome.droppedTimeout k => k

/-- How many times the outcome invokes the classification callback. -/
def PollOutcome.invocations : PollOutcome → Nat
  | PollOutcome.invoked _ => 1
  | _ => 0

/-- The `check` closure of `_waitForWindowReady` (extension.ts, lines
755–783), iterated.  `obs k` is the window as observed by the `k`-th timer
callback; `attempts` is the value of the counter before the increment at
the top of `check`.  Fuel is the remaining number of allowed reschedules
(called with `maxAttempts`, which suffices). -/
def pollLoop (obs : Nat → MWindow) (maxAttempts : Nat) :
    Nat → Nat → PollOutcome
  | 0, attempts => PollOutcome.droppedTimeout attempts
  | fuel + 1, attempts =>
    let a := attempts + 1
    if !(obs a).hasDisplay then PollOutcome.droppedDestroyed a
    else if isWindowReady (obs a) then PollOutcome.invoked a
    else if maxAttempts ≤ a then PollOutcome.droppedTimeout a
    else pollLoop obs maxAttempts fuel a

/-- `_waitForWindowReady` (extension.ts, lines 731–787), after the prologue
that cancels a previous poll: if the window observed at call time (`obs 0`)
is already ready the callback runs immediately, otherwise the poll loop
starts with the `attempts` counter at `0`. -/
def waitForWindowReady (obs : Nat → MWindow) (maxAttempts : Nat) :
    PollOutcome :=
  if isWindowReady (obs 0) then PollOutcome.invoked 0
  else pollLoop obs maxAttempts maxAttempts 0

/-- The prologue of `_waitForWindowReady` (extension.ts, lines 740–745):
the window's stored `readyTimerId`, if any, is removed from the pending
ready timers; `pending` is the list of this window's pending ready-poll
timer ids. -/
def cancelPriorReadyTimer (pending : List Nat) (stored : Option Nat) :
    List Nat :=
  match stored with
  | some tid => pending.erase tid
  | none => pending

/-- The timer bookkeeping of one `_waitForWindowReady` call: cancel the
prior poll, then — unless the window is already ready — schedule one fresh
poll timer and store its id. -/
def startReadyPoll (pending : List Nat) (stored : Option Nat)
    (alreadyReady : Bool) (fresh : Nat) : List Nat × Option Nat :=
  let p := cancelPriorReadyTimer pending stored
  if alreadyReady then (p, none) else (p ++ [fresh], some fresh)

/-- JavaScript `Array.prototype.indexOf`: index of the first occurrence, or
`-1`. -/
def jsIndexOf (lst : List MWindow) (win : MWindow) : Int :=
  match lst with
  | [] => -1
  | v :: rest =>
    if v = win then 0
    else
      let r := jsIndexOf rest win
      if r < 0 then -1 else r + 1

/-- The placement step of `_processNewWindow` (extension.ts, lines
890–903): the window is appended by `WorkspaceTracker.addWindow`
(spec-modelled `trackerAdd`); when the `new-window-behavior` setting is
`"primary"` and the window sits at a positive index, it is spliced out and
unshifted to the front; under any other value the list is left as built. -/
def placeNewWindow (behavior : String) (tiled : List MWindow)
    (win : MWindow) : List MWindow :=
  let t := trackerAdd tiled win
  if behavior = "primary" then
    let index := jsIndexOf t win
    if index > 0 then win :: t.eraseIdx index.toNat else t
  else t

/-- A plain live tileable window with the given id, for concrete runs. -/
def sampleWin (n : Nat) : MWindow :=
  ⟨n, true, 0, false, false, true, false, false, false, false,
   some "app", none, 100, 100, true⟩

/-- A live maximized (not minimized) window. -/
def maxWin : MWindow :=
  ⟨1, true, 0, false, true, true, false, false, false, false,
   some "app", none, 100, 100, true⟩

/-- A live window with `skip_taskbar` set (fails the tileable test without
matching any exception). -/
def skipWin : MWindow :=
  ⟨5, true, 0, false, false, true, false, false, false, true,
   some "term", none, 100, 100, true⟩

/-- A live window whose class is `Firefox` (matches the exception string
`firefox` after lower-casing). -/
def firefoxWin : MWindow :=
  ⟨7, true, 0, false, false, true, false, false, false, false,
   some "Firefox", none, 100, 100, true⟩

/-- Scheduler state: tiling enabled, respect-maximized set, one maximized
window tracked, idle scheduler. -/
def maxGateState : TilerState :=
  { tilingEnabled := true, respectMaximized := true, tiled := [maxWin],
    tileInProgress := false, tileTimeoutId := none, tilingTimers := 0,
    executing := 0, executedCount := 0, scheduledCount := 0 }

/-- Scheduler state: tiling enabled, gates open, idle scheduler. -/
def idleState : TilerState :=
  { tilingEnabled := true, respectMaximized := false, tiled := [],
    tileInProgress := false, tileTimeoutId := none, tilingTimers := 0,
    executing := 0, executedCount := 0, scheduledCount := 0 }

/-- Scheduler state: tiling disabled, otherwise idle. -/
def disabledState : TilerState :=
  { tilingEnabled := false, respectMaximized := false, tiled := [],
    tileInProgress := false, tileTimeoutId := none, tilingTimers := 0,
    executing := 0, executedCount := 0, scheduledCount := 0 }

/-- All pass settings on. -/
def allOnSettings : PassSettings := ⟨true, true, true, true⟩

lemma rectDisj_symm {a b : Rect} (h : RectDisj a b) : RectDisj b a :=
  fun px py hb ha => h px py ha hb

lemma rectSub_trans {a b c : Rect} (h1 : RectSub a b) (h2 : RectSub b c) :
    RectSub a c :=
  fun px py hp => h2 px py (h1 px py hp)

lemma rectDisj_of_sub_left {a s b : Rect} (h : RectSub a s)
    (hd : RectDisj s b) : RectDisj a b :=
  fun px py ha hb => hd px py (h px py ha) hb

lemma rectDisj_of_sub_right {a s b : Rect} (h : RectSub b s)
    (hd : RectDisj a s) : RectDisj a b :=
  fun px py ha hb => hd px py ha (h px py hb)

/-- One horizontal split into primary, gap strip and secondary tiles the
area exactly, provided the primary extent is nonnegative and primary plus
gap fit into the width. -/
lemma hsplit_spec (x y w h pw G : Int) (hpw : 0 ≤ pw) (hG : 0 ≤ G)
    (hfit : pw + G ≤ w) :
    (∀ px py, RectPt ⟨x, y, w, h⟩ px py ↔
        (RectPt ⟨x, y, pw, h⟩ px py ∨ RectPt ⟨x + pw, y, G, h⟩ px py ∨
         RectPt ⟨x + pw + G, y, w - pw - G, h⟩ px py))
    ∧ RectSub ⟨x, y, pw, h⟩ ⟨x, y, w, h⟩
    ∧ RectSub ⟨x + pw, y, G, h⟩ ⟨x, y, w, h⟩
    ∧ RectSub ⟨x + pw + G, y, w - pw - G, h⟩ ⟨x, y, w, h⟩
    ∧ RectDisj ⟨x, y, pw, h⟩ ⟨x + pw, y, G, h⟩
    ∧ RectDisj ⟨x, y, pw, h⟩ ⟨x + pw + G, y, w - pw - G, h⟩
    ∧ RectDisj ⟨x + pw, y, G, h⟩ ⟨x + pw + G, y, w - pw - G, h⟩ := by
  refine ⟨?_, ?_, ?_, ?_, ?_, ?_, ?_⟩
  · intro px py; simp only [RectPt]; omega
  · intro px py; simp only [RectPt]; omega
  · intro px py; simp only [RectPt]; omega
  · intro px py; simp only [RectPt]; omega
  · intro px py h1 h2; simp only [RectPt] at h1 h2; omega
  · intro px py h1 h2; simp only [RectPt] at h1 h2; omega
  · intro px py h1 h2; simp only [RectPt] at h1 h2; omega

/-- One vertical split into primary, gap strip and secondary tiles the area
exactly, provided the primary extent is nonnegative and primary plus gap
fit into the height. -/
lemma vsplit_spec (x y w h ph G : Int) (hph : 0 ≤ ph) (hG : 0 ≤ G)
    (hfit : ph + G ≤ h) :
    (∀ px py, RectPt ⟨x, y, w, h⟩ px py ↔
        (RectPt ⟨x, y, w, ph⟩ px py ∨ RectPt ⟨x, y + ph, w, G⟩ px py ∨
         RectPt ⟨x, y + ph + G, w, h - ph - G⟩ px py))
    ∧ RectSub ⟨x, y, w, ph⟩ ⟨x, y, w, h⟩
    ∧ RectSub ⟨x, y + ph, w, G⟩ ⟨x, y, w, h⟩
    ∧ RectSub ⟨x, y + ph + G, w, h - ph - G⟩ ⟨x, y, w, h⟩
    ∧ RectDisj ⟨x, y, w, ph⟩ ⟨x, y + ph, w, G⟩
    ∧ RectDisj ⟨x, y, w, ph⟩ ⟨x, y + ph + G, w, h - ph - G⟩
    ∧ RectDisj ⟨x, y + ph, w, G⟩ ⟨x, y + ph + G, w, h - ph - G⟩ := by
  refine ⟨?_, ?_, ?_, ?_, ?_, ?_, ?_⟩
  · intro px py; simp only [RectPt]; omega
  · intro px py; simp only [RectPt]; omega
  · intro px py; simp only [RectPt]; omega
  · intro px py; simp only [RectPt]; omega
  · intro px py h1 h2; simp only [RectPt] at h1 h2; omega
  · intro px py h1 h2; simp only [RectPt] at h1 h2; omega
  · intro px py h1 h2; simp only [RectPt] at h1 h2; omega

/-- Assembly step: if one split tiles `a` into `P`, `Gp`, `S` and the lists
`rs ++ gs` tile `S`, then `P`, `rs`, `Gp`, `gs` together tile `a`. -/
lemma partition_assemble (a P Gp S : Rect) (rs gs : List Rect)
    (hcov : ∀ px py, RectPt a px py ↔
      (RectPt P px py ∨ RectPt Gp px py ∨ RectPt S px py))
    (hPsub : RectSub P a) (hGsub : RectSub Gp a) (hSsub : RectSub S a)
    (hPG : RectDisj P Gp) (hPS : RectDisj P S) (hGS : RectDisj Gp S)
    (hScov : CoversExactly (rs ++ gs) S)
    (hSsubs : ∀ r ∈ rs ++ gs, RectSub r S)
    (hSpw : List.Pairwise RectDisj (rs ++ gs)) :
    CoversExactly (P :: rs ++ Gp :: gs) a
    ∧ (∀ r ∈ P :: rs ++ Gp :: gs, RectSub r a)
    ∧ List.Pairwise RectDisj (P :: rs ++ Gp :: gs) := by
  have hmem : ∀ r : Rect, r ∈ P :: rs ++ Gp :: gs ↔
      (r = P ∨ r ∈ rs ∨ r = Gp ∨ r ∈ gs) := by
    intro r
    simp only [List.cons_append, List.mem_cons, List.mem_append, List.mem_cons]
  have hsubs : ∀ r ∈ P :: rs ++ Gp :: gs, RectSub r a := by
    intro r hr
    rcases (hmem r).mp hr with h | h | h | h
    · exact h ▸ hPsub
    · exact rectSub_trans (hSsubs r (List.mem_append.mpr (Or.inl h))) hSsub
    · exact h ▸ hGsub
    · exact rectSub_trans (hSsubs r (List.mem_append.mpr (Or.inr h))) hSsub
  refine ⟨?_, hsubs, ?_⟩
  · intro px py
    constructor
    · intro hp
      rcases (hcov px py).mp hp with h | h | h
      · exact ⟨P, (hmem P).mpr (Or.inl rfl), h⟩
      · exact ⟨Gp, (hmem Gp).mpr (Or.inr (Or.inr (Or.inl rfl))), h⟩
      · obtain ⟨r, hr, hrp⟩ := (hScov px py).mp h
        rcases List.mem_append.mp hr with h2 | h2
        · exact ⟨r, (hmem r).mpr (Or.inr (Or.inl h2)), hrp⟩
        · exact ⟨r, (hmem r).mpr (Or.inr (Or.inr (Or.inr h2))), hrp⟩
    · rintro ⟨r, hr, hrp⟩
      exact hsubs r hr px py hrp
  · have hpw := List.pairwise_append.mp hSpw
    rw [List.cons_append, List.pairwise_cons]
    constructor
    · intro b hb
      rcases List.mem_append.mp hb with h | h
      · exact rectDisj_of_sub_right (hSsubs b (List.mem_append.mpr (Or.inl h))) hPS
      · rcases List.mem_cons.mp h with h2 | h2
        · exact h2 ▸ hPG
        · exact rectDisj_of_sub_right
            (hSsubs b (List.mem_append.mpr (Or.inr h2))) hPS
    · rw [List.pairwise_append]
      refine ⟨hpw.1, ?_, ?_⟩
      · rw [List.pairwise_cons]
        refine ⟨?_, hpw.2.1⟩
        intro b hb
        exact rectDisj_of_sub_right (hSsubs b (List.mem_append.mpr (Or.inr hb))) hGS
      · intro r hr b hb
        rcases List.mem_cons.mp hb with h2 | h2
        · exact h2 ▸ rectDisj_of_sub_left
            (hSsubs r (List.mem_append.mpr (Or.inl hr))) (rectDisj_symm hGS)
        · exact hpw.2.2 r hr b h2

lemma fitsB_two (G : Int) (n : Nat) (a : Rect) :
    fitsB G (n + 2) a =
      ((if a.w > a.h
        then decide (0 ≤ (splitAreas G a).1.w) &&
             decide ((splitAreas G a).1.w + G ≤ a.w)
        else decide (0 ≤ (splitAreas G a).1.h) &&
             decide ((splitAreas G a).1.h + G ≤ a.h)) &&
       fitsB G (n + 1) (splitAreas G a).2.2) := rfl

/-- The assignments of `_splitLayout` together with the inner-gap strips of
its splits tile the given area exactly, under the fitting precondition. -/
lemma splitLayout_partition {α : Type} (G : Int) (hG : 0 ≤ G) :
    ∀ (ws : List α) (a : Rect), ws ≠ [] → fitsB G ws.length a = true →
      CoversExactly ((splitLayout G ws a).map Prod.snd ++ splitGaps G ws a) a
      ∧ (∀ r ∈ (splitLayout G ws a).map Prod.snd ++ splitGaps G ws a,
          RectSub r a)
      ∧ List.Pairwise RectDisj
          ((splitLayout G ws a).map Prod.snd ++ splitGaps G ws a) := by
  intro ws
  induction ws with
  | nil => intro a hne _; exact absurd rfl hne
  | cons w tail ih =>
    intro a _ hfit
    match tail, ih with
    | [], _ =>
      refine ⟨?_, ?_, ?_⟩
      · intro px py
        simp only [splitLayout, splitGaps, List.map_cons, List.map_nil,
          List.append_nil, List.mem_singleton]
        constructor
        · intro hp; exact ⟨a, rfl, hp⟩
        · rintro ⟨r, rfl, hp⟩; exact hp
      · intro r hr
        simp only [splitLayout, splitGaps, List.map_cons, List.map_nil,
          List.append_nil, List.mem_singleton] at hr
        intro px py hp; exact hr ▸ hp
      · simp [splitLayout, splitGaps]
    | v :: rest, ih =>
      have hlen : (w :: v :: rest).length = rest.length + 2 := by
        simp [List.length_cons]
      rw [hlen, fitsB_two, Bool.and_eq_true] at hfit
      have hrec := ih (splitAreas G a).2.2 (List.cons_ne_nil v rest)
        (by simpa [List.length_cons] using hfit.2)
      have hlist :
          (splitLayout G (w :: v :: rest) a).map Prod.snd ++
            splitGaps G (w :: v :: rest) a =
          ((splitAreas G a).1 ::
              (splitLayout G (v :: rest) (splitAreas G a).2.2).map Prod.snd) ++
            ((splitAreas G a).2.1 ::
              splitGaps G (v :: rest) (splitAreas G a).2.2) := by
        simp [splitLayout, splitGaps]
      rw [hlist]
      by_cases hwh : a.w > a.h
      · rw [if_pos hwh, Bool.and_eq_true, decide_eq_true_eq,
          decide_eq_true_eq] at hfit
        have hsa : splitAreas G a =
            (⟨a.x, a.y, Int.fdiv a.w 2 - Int.fdiv G 2, a.h⟩,
             ⟨a.x + (Int.fdiv a.w 2 - Int.fdiv G 2), a.y, G, a.h⟩,
             ⟨a.x + (Int.fdiv a.w 2 - Int.fdiv G 2) + G, a.y,
              a.w - (Int.fdiv a.w 2 - Int.fdiv G 2) - G, a.h⟩) := by
          simp only [splitAreas, if_pos hwh]
        have hp1 : (0:Int) ≤ Int.fdiv a.w 2 - Int.fdiv G 2 := by
          have := hfit.1.1; rw [hsa] at this; exact this
        have hp2 : Int.fdiv a.w 2 - Int.fdiv G 2 + G ≤ a.w := by
          have := hfit.1.2; rw [hsa] at this; exact this
        obtain ⟨hc, hs1, hs2, hs3, hd1, hd2, hd3⟩ :=
          hsplit_spec a.x a.y a.w a.h (Int.fdiv a.w 2 - Int.fdiv G 2) G
            hp1 hG hp2
        rw [hsa] at hrec ⊢
        exact partition_assemble a _ _ _ _ _ hc hs1 hs2 hs3 hd1 hd2 hd3
          hrec.1 hrec.2.1 hrec.2.2
      · rw [if_neg hwh, Bool.and_eq_true, decide_eq_true_eq,
          decide_eq_true_eq] at hfit
        have hsa : splitAreas G a =
            (⟨a.x, a.y, a.w, Int.fdiv a.h 2 - Int.fdiv G 2⟩,
             ⟨a.x, a.y + (Int.fdiv a.h 2 - Int.fdiv G 2), a.w, G⟩,
             ⟨a.x, a.y + (Int.fdiv a.h 2 - Int.fdiv G 2) + G, a.w,
              a.h - (Int.fdiv a.h 2 - Int.fdiv G 2) - G⟩) := by
          simp only [splitAreas, if_neg hwh]
        have hp1 : (0:Int) ≤ Int.fdiv a.h 2 - Int.fdiv G 2 := by
          have := hfit.1.1; rw [hsa] at this; exact this
        have hp2 : Int.fdiv a.h 2 - Int.fdiv G 2 + G ≤ a.h := by
          have := hfit.1.2; rw [hsa] at this; exact this
        obtain ⟨hc, hs1, hs2, hs3, hd1, hd2, hd3⟩ :=
          vsplit_spec a.x a.y a.w a.h (Int.fdiv a.h 2 - Int.fdiv G 2) G
            hp1 hG hp2
        rw [hsa] at hrec ⊢
        exact partition_assemble a _ _ _ _ _ hc hs1 hs2 hs3 hd1 hd2 hd3
          hrec.1 hrec.2.1 hrec.2.2

lemma tileFitsB_two (G : Int) (n : Nat) (inner : Rect) :
    tileFitsB G (n + 2) inner =
      (decide (0 ≤ Int.fdiv inner.w 2 - Int.fdiv G 2) &&
       decide (Int.fdiv inner.w 2 - Int.fdiv G 2 + G ≤ inner.w) &&
       fitsB G (n + 1)
         ⟨inner.x + (Int.fdiv inner.w 2 - Int.fdiv G 2) + G, inner.y,
          inner.w - (Int.fdiv inner.w 2 - Int.fdiv G 2) - G, inner.h⟩) := rfl

/-- The assignments of the `_tileWindows` geometry pass together with all
inner-gap strips tile the inner area exactly, under the fitting
precondition. -/
lemma tileGeometry_partition {α : Type} (G : Int) (hG : 0 ≤ G)
    (ws : List α) (inner : Rect) (hne : ws ≠ [])
    (hfit : tileFitsB G ws.length inner = true) :
    CoversExactly ((tileGeometry G ws inner).map Prod.snd ++
      tileGaps G ws inner) inner
    ∧ (∀ r ∈ (tileGeometry G ws inner).map Prod.snd ++ tileGaps G ws inner,
        RectSub r inner)
    ∧ List.Pairwise RectDisj
        ((tileGeometry G ws inner).map Prod.snd ++ tileGaps G ws inner) := by
  match ws with
  | [] => exact absurd rfl hne
  | [w] =>
    refine ⟨?_, ?_, ?_⟩
    · intro px py
      simp only [tileGeometry, tileGaps, List.map_cons, List.map_nil,
        List.append_nil, List.mem_singleton]
      constructor
      · intro hp; exact ⟨inner, rfl, hp⟩
      · rintro ⟨r, rfl, hp⟩; exact hp
    · intro r hr
      simp only [tileGeometry, tileGaps, List.map_cons, List.map_nil,
        List.append_nil, List.mem_singleton] at hr
      intro px py hp; exact hr ▸ hp
    · simp [tileGeometry, tileGaps]
  | w :: v :: rest =>
    have hlen : (w :: v :: rest).length = rest.length + 2 := by
      simp [List.length_cons]
    rw [hlen, tileFitsB_two, Bool.and_eq_true, Bool.and_eq_true,
      decide_eq_true_eq, decide_eq_true_eq] at hfit
    have hrec := splitLayout_partition G hG (v :: rest)
      ⟨inner.x + (Int.fdiv inner.w 2 - Int.fdiv G 2) + G, inner.y,
       inner.w - (Int.fdiv inner.w 2 - Int.fdiv G 2) - G, inner.h⟩
      (List.cons_ne_nil v rest)
      (by simpa [List.length_cons] using hfit.2)
    have hlist :
        (tileGeometry G (w :: v :: rest) inner).map Prod.snd ++
          tileGaps G (w :: v :: rest) inner =
        ((⟨inner.x, inner.y, Int.fdiv inner.w 2 - Int.fdiv G 2, inner.h⟩ : Rect) ::
            (splitLayout G (v :: rest)
              ⟨inner.x + (Int.fdiv inner.w 2 - Int.fdiv G 2) + G, inner.y,
               inner.w - (Int.fdiv inner.w 2 - Int.fdiv G 2) - G,
               inner.h⟩).map Prod.snd) ++
          ((⟨inner.x + (Int.fdiv inner.w 2 - Int.fdiv G 2), inner.y, G,
              inner.h⟩ : Rect) ::
            splitGaps G (v :: rest)
              ⟨inner.x + (Int.fdiv inner.w 2 - Int.fdiv G 2) + G, inner.y,
               inner.w - (Int.fdiv inner.w 2 - Int.fdiv G 2) - G, inner.h⟩) := by
      simp only [tileGeometry, tileGaps, List.map_cons, List.cons_append]
    rw [hlist]
    obtain ⟨hc, hs1, hs2, hs3, hd1, hd2, hd3⟩ :=
      hsplit_spec inner.x inner.y inner.w inner.h
        (Int.fdiv inner.w 2 - Int.fdiv G 2) G hfit.1.1 hG hfit.1.2
    exact partition_assemble inner _ _ _ _ _ hc hs1 hs2 hs3 hd1 hd2 hd3
      hrec.1 hrec.2.1 hrec.2.2

lemma splitLayout_fst {α : Type} (G : Int) :
    ∀ (ws : List α) (a : Rect), (splitLayout G ws a).map Prod.fst = ws := by
  intro ws
  induction ws with
  | nil => intro a; rfl
  | cons w tail ih =>
    intro a
    match tail, ih with
    | [], _ => rfl
    | v :: rest, ih => simp [splitLayout, ih]

lemma tileGeometry_fst {α : Type} (G : Int) (ws : List α) (inner : Rect) :
    (tileGeometry G ws inner).map Prod.fst = ws := by
  match ws with
  | [] => rfl
  | [w] => rfl
  | w :: v :: rest => simp [tileGeometry, splitLayout_fst]


lemma tilerInv_step {s t : TilerState} (hs : TilerInv s) (hstep : TilerStep s t) :
    TilerInv t := by
  obtain ⟨h1, h2⟩ := hs
  cases hstep with
  | queue =>
    unfold queueTileFn
    split
    · exact ⟨h1, h2⟩
    · next hguard =>
      simp only [Bool.or_eq_true, not_or] at hguard
      split
      · exact ⟨h1, h2⟩
      · split
        · exact ⟨h1, h2⟩
        · have := h2 (by
            revert hguard
            cases s.tileInProgress <;> simp)
          refine ⟨by simp [this.1, this.2], by simp⟩
  | fireStart =>
    unfold tileFireStart
    split
    · exact ⟨h1, h2⟩
    · next hnz =>
      constructor
      · simp only; omega
      · intro hfalse
        simp only
        have hp : s.tileInProgress = true := by
          by_contra hq
          have : s.tileInProgress = false := by
            cases hh : s.tileInProgress
            · rfl
            · exact absurd hh hq
          exact hnz (h2 this).1
        simp only at hfalse
        rw [hp] at hfalse
        exact absurd hfalse (by simp)
  | fireEnd =>
    unfold tileFireEnd
    split
    · exact ⟨h1, h2⟩
    · next hnz =>
      constructor
      · simp only; omega
      · intro _
        simp only
        omega
  | now =>
    unfold tileNowFn
    split
    · exact ⟨h1, h2⟩
    · split
      · exact ⟨h1, h2⟩
      · exact ⟨h1, h2⟩
  | env enabled respect tiled => exact ⟨h1, h2⟩

lemma tilerInv_reachable {s : TilerState} (h : TilerReachable s) : TilerInv s := by
  induction h with
  | init enabled respect tiled => exact ⟨by simp, fun _ => ⟨rfl, rfl⟩⟩
  | step _ hstep ih => exact tilerInv_step ih hstep

lemma trackerAdd_mem_self (l : List MWindow) (w : MWindow) :
    w ∈ trackerAdd l w := by
  unfold trackerAdd
  split
  · assumption
  · simp

lemma trackerAdd_mem_mono {l : List MWindow} {w : MWindow} (v : MWindow)
    (h : w ∈ l) : w ∈ trackerAdd l v := by
  unfold trackerAdd
  split
  · exact h
  · exact List.mem_append.mpr (Or.inl h)

/-- An exception-matching window is erased from the tiled accumulator by
its own recheck step (either because it is stale or because it is moved to
the exceptions list). -/
lemma recheckStep_fst_exception (S : PassSettings) (exc : List String)
    (acc : List MWindow × List MWindow × List MWindow) (w : MWindow)
    (hw : isException exc w = true) :
    (recheckStep S exc acc w).1 = acc.1.erase w := by
  by_cases hv : isWindowValid w <;>
    simp [recheckStep, trackerRemove, hv, hw]

lemma recheckStep_fst_count_ne (S : PassSettings) (exc : List String)
    (acc : List MWindow × List MWindow × List MWindow) (v w : MWindow)
    (hne : w ≠ v) :
    ((recheckStep S exc acc v).1).count w = acc.1.count w := by
  unfold recheckStep
  split
  · simp [trackerRemove, List.count_erase_of_ne hne]
  · split
    · simp [trackerRemove, List.count_erase_of_ne hne]
    · rfl

/-- A recheck step leaves a live non-exception window's own entry alone. -/
lemma recheckStep_keep (S : PassSettings) (exc : List String)
    (acc : List MWindow × List MWindow × List MWindow) (w : MWindow)
    (hv : w.hasDisplay = true) (hw : isException exc w = false) :
    recheckStep S exc acc w = acc := by
  simp [recheckStep, isWindowValid, hv, hw]

lemma recheck_fold_count_exception (S : PassSettings) (exc : List String)
    (w : MWindow) (hw : isException exc w = true) :
    ∀ (l : List MWindow) (acc : List MWindow × List MWindow × List MWindow),
      ((l.foldl (recheckStep S exc) acc).1).count w =
        acc.1.count w - l.count w := by
  intro l
  induction l with
  | nil => intro acc; simp
  | cons v rest ih =>
    intro acc
    rw [List.foldl_cons, ih]
    by_cases hvw : v = w
    · subst hvw
      rw [recheckStep_fst_exception S exc acc v hw]
      simp only [List.count_erase_self, List.count_cons_self]
      omega
    · rw [recheckStep_fst_count_ne S exc acc v w (Ne.symm hvw),
        List.count_cons_of_ne (Ne.symm hvw)]

/-- After the exception recheck, no exception-matching window remains in
the tiled list. -/
lemma recheck_not_mem_tiled (S : PassSettings) (exc : List String)
    (tiled exceptionsList : List MWindow) (w : MWindow)
    (hw : isException exc w = true) :
    w ∉ (recheckExceptions S exc tiled exceptionsList).1 := by
  have h := recheck_fold_count_exception S exc w hw tiled
    (tiled, exceptionsList, [])
  rw [Nat.sub_self] at h
  exact List.count_eq_zero.mp h

lemma recheckStep_mem_snd_mono (S : PassSettings) (exc : List String)
    (acc : List MWindow × List MWindow × List MWindow) (v w : MWindow)
    (hv : w.hasDisplay = true) (hw : isException exc w = true)
    (hmem : w ∈ acc.2.1) : w ∈ (recheckStep S exc acc v).2.1 := by
  by_cases hvw : v = w
  · subst hvw
    simp only [recheckStep, isWindowValid, hv, Bool.not_true,
      Bool.false_eq_true, if_false, hw, if_true]
    exact trackerAdd_mem_self _ v
  · unfold recheckStep
    split
    · exact (List.mem_erase_of_ne (Ne.symm hvw)).mpr hmem
    · split
      · exact trackerAdd_mem_mono v
          ((List.mem_erase_of_ne (Ne.symm hvw)).mpr hmem)
      · exact hmem

lemma recheck_fold_mem_snd (S : PassSettings) (exc : List String)
    (w : MWindow) (hv : w.hasDisplay = true) (hw : isException exc w = true) :
    ∀ (l : List MWindow) (acc : List MWindow × List MWindow × List MWindow),
      (w ∈ l ∨ w ∈ acc.2.1) → w ∈ (l.foldl (recheckStep S exc) acc).2.1 := by
  intro l
  induction l with
  | nil =>
    intro acc h
    rcases h with h | h
    · exact absurd h (List.not_mem_nil w)
    · exact h
  | cons v rest ih =>
    intro acc h
    rw [List.foldl_cons]
    apply ih
    rcases h with h | h
    · rcases List.mem_cons.mp h with h2 | h2
      · subst h2
        refine Or.inr ?_
        simp only [recheckStep, isWindowValid, hv, Bool.not_true,
          Bool.false_eq_true, if_false, hw, if_true]
        exact trackerAdd_mem_self _ w
      · exact Or.inl h2
    · exact Or.inr (recheckStep_mem_snd_mono S exc acc v w hv hw h)

lemma recheckStep_mem_c_mono (S : PassSettings) (exc : List String)
    (acc : List MWindow × List MWindow × List MWindow) (v w : MWindow)
    (hmem : w ∈ acc.2.2) : w ∈ (recheckStep S exc acc v).2.2 := by
  unfold recheckStep
  split
  · exact hmem
  · split
    · split
      · exact List.mem_append.mpr (Or.inl hmem)
      · exact hmem
    · exact hmem

lemma recheck_fold_mem_c (S : PassSettings) (exc : List String)
    (w : MWindow) (hv : w.hasDisplay = true) (hw : isException exc w = true)
    (hset : (S.tilingEnabled &&
      (S.exceptionsAlwaysCenter || S.exceptionsAlwaysOnTop)) = true) :
    ∀ (l : List MWindow) (acc : List MWindow × List MWindow × List MWindow),
      (w ∈ l ∨ w ∈ acc.2.2) → w ∈ (l.foldl (recheckStep S exc) acc).2.2 := by
  intro l
  induction l with
  | nil =>
    intro acc h
    rcases h with h | h
    · exact absurd h (List.not_mem_nil w)
    · exact h
  | cons v rest ih =>
    intro acc h
    rw [List.foldl_cons]
    apply ih
    rcases h with h | h
    · rcases List.mem_cons.mp h with h2 | h2
      · subst h2
        refine Or.inr ?_
        simp only [recheckStep, isWindowValid, hv, Bool.not_true,
          Bool.false_eq_true, if_false, hw, if_true, hset]
        exact List.mem_append.mpr (Or.inr (List.mem_singleton.mpr rfl))
      · exact Or.inl h2
    · exact Or.inr (recheckStep_mem_c_mono S exc acc v w h)

lemma recheck_fold_count_keep (S : PassSettings) (exc : List String)
    (w : MWindow) (hv : w.hasDisplay = true)
    (hw : isException exc w = false) :
    ∀ (l : List MWindow) (acc : List MWindow × List MWindow × List MWindow),
      ((l.foldl (recheckStep S exc) acc).1).count w = acc.1.count w := by
  intro l
  induction l with
  | nil => intro acc; rfl
  | cons v rest ih =>
    intro acc
    rw [List.foldl_cons, ih]
    by_cases hvw : v = w
    · subst hvw; rw [recheckStep_keep S exc acc v hv hw]
    · exact recheckStep_fst_count_ne S exc acc v w (Ne.symm hvw)

/-- A live non-exception tracked window stays in the tiled list over the
recheck. -/
lemma recheck_mem_tiled_keep (S : PassSettings) (exc : List String)
    (tiled exceptionsList : List MWindow) (w : MWindow)
    (hv : w.hasDisplay = true) (hw : isException exc w = false)
    (hmem : w ∈ tiled) :
    w ∈ (recheckExceptions S exc tiled exceptionsList).1 := by
  have h := recheck_fold_count_keep S exc w hv hw tiled
    (tiled, exceptionsList, [])
  have hpos : 0 < tiled.count w := List.count_pos_iff.mpr hmem
  exact List.count_pos_iff.mp (by rw [recheckExceptions, h]; exact hpos)

lemma jsIndexOf_append_self (l : List MWindow) (w : MWindow) (h : w ∉ l) :
    jsIndexOf (l ++ [w]) w = (l.length : Int) := by
  induction l with
  | nil => simp [jsIndexOf]
  | cons v rest ih =>
    have hvw : v ≠ w := fun e => h (e ▸ List.mem_cons_self v rest)
    have hrest : w ∉ rest := fun e => h (List.mem_cons_of_mem v e)
    have ih2 := ih hrest
    simp only [List.cons_append, jsIndexOf, if_neg hvw, List.append_eq]
    rw [ih2, if_neg (by omega)]
    simp

lemma eraseIdx_concat (l : List MWindow) (w : MWindow) :
    (l ++ [w]).eraseIdx l.length = l := by
  induction l with
  | nil => rfl
  | cons v rest ih =>
    simp only [List.cons_append, List.length_cons, List.eraseIdx_cons_succ,
      ih]

lemma queueTileFn_sched (s : TilerState) (hp : s.tileInProgress = false)
    (ht : s.tileTimeoutId = none) (he : s.tilingEnabled = true)
    (hg : (s.respectMaximized && hasMaximizedWindows s) = false) :
    queueTileFn s =
      { s with tileInProgress := true,
               tileTimeoutId := some s.scheduledCount,
               tilingTimers := s.tilingTimers + 1,
               scheduledCount := s.scheduledCount + 1 } := by
  simp [queueTileFn, hp, ht, he, hg]

lemma queueTileFn_fixed (s : TilerState) (hp : s.tileInProgress = true) :
    queueTileFn s = s := by
  simp [queueTileFn, hp]

lemma pollLoop_attempt_le (obs : Nat → MWindow) (m : Nat) :
    ∀ (fuel attempts : Nat),
      (pollLoop obs m fuel attempts).attempt ≤ attempts + fuel := by
  intro fuel
  induction fuel with
  | zero => intro attempts; simp [pollLoop, PollOutcome.attempt]
  | succ f ih =>
    intro attempts
    simp only [pollLoop]
    split_ifs with h1 h2 h3
    · simp only [PollOutcome.attempt]; omega
    · simp only [PollOutcome.attempt]; omega
    · simp only [PollOutcome.attempt]; omega
    · have := ih (attempts + 1); omega

lemma pollLoop_invoked_spec (obs : Nat → MWindow) (m : Nat) :
    ∀ (fuel attempts k : Nat),
      pollLoop obs m fuel attempts = PollOutcome.invoked k →
      isWindowReady (obs k) = true ∧
      ∀ j, attempts + 1 ≤ j → j < k →
        (obs j).hasDisplay = true ∧ isWindowReady (obs j) = false := by
  intro fuel
  induction fuel with
  | zero =>
    intro attempts k h
    exact absurd h (by simp [pollLoop])
  | succ f ih =>
    intro attempts k h
    simp only [pollLoop] at h
    split_ifs at h with h1 h2 h3
    · have hk : attempts + 1 = k := PollOutcome.invoked.inj h
      subst hk
      exact ⟨h2, fun j hj1 hj2 => absurd (Nat.lt_of_le_of_lt hj1 hj2)
        (Nat.lt_irrefl _)⟩
    · obtain ⟨hr, hj⟩ := ih (attempts + 1) k h
      refine ⟨hr, ?_⟩
      intro j hj1 hj2
      by_cases hje : j = attempts + 1
      · subst hje
        constructor
        · revert h1; cases (obs (attempts + 1)).hasDisplay <;> simp
        · revert h2; cases hready : isWindowReady (obs (attempts + 1)) <;>
            simp
      · exact hj j (by omega) hj2

lemma tilerFlagInv_step {s t : TilerState}
    (hs : s.tileTimeoutId.isSome = true → s.tileInProgress = true)
    (hstep : TilerStep s t) :
    t.tileTimeoutId.isSome = true → t.tileInProgress = true := by
  cases hstep with
  | queue =>
    unfold queueTileFn
    split
    · exact hs
    · split
      · exact hs
      · split
        · exact hs
        · intro _; rfl
  | fireStart =>
    unfold tileFireStart
    split
    · exact hs
    · exact hs
  | fireEnd =>
    unfold tileFireEnd
    split
    · exact hs
    · intro h; exact absurd h (by simp)
  | now =>
    unfold tileNowFn
    split
    · exact hs
    · split
      · exact hs
      · exact hs
  | env enabled respect tiled => exact hs

/-- In every reachable scheduler state, a pending debounce timer implies
the `_tileInProgress` flag is set (queueTile sets both together). -/
lemma tilerFlagInv_reachable {s : TilerState} (h : TilerReachable s) :
    s.tileTimeoutId.isSome = true → s.tileInProgress = true := by
  induction h with
  | init enabled respect tiled => intro hh; exact absurd hh (by simp)
  | step _ hstep ih => exact tilerFlagInv_step ih hstep

/-- C9: for every registry state and every host behaviour, `clearAll`
returns normally (each `source_remove` failure is caught and collected as a
logged error, never re-thrown) with an empty timeout map, so the count is
`0` afterwards; `Tiler.disable`, which runs `clearAll()` first, therefore
leaves zero registered timers. -/
theorem c9_clearAll_never_throws_and_empties :
    ∀ (host : Nat → Except String Unit) (r : RegistryState),
      clearAllE host r =
        Except.ok ({ timeouts := [], nextId := r.nextId },
          clearAllErrors host r)
      ∧ registryCount { timeouts := [], nextId := r.nextId } = 0
      ∧ registryCount (tilerDisableRegistry host r) = 0 :=
  fun _ _ => ⟨rfl, rfl, rfl⟩

/-- C10: a newly processed tileable window is appended to the workspace's
tiled list; when `new-window-behavior` is `"primary"` it is then moved to
index 0 (it becomes the primary), and under any other value it remains at
the end of the list. -/
theorem c10_new_window_placement (behavior : String) (tiled : List MWindow)
    (win : MWindow) (h : win ∉ tiled) :
    (behavior = "primary" → placeNewWindow behavior tiled win = win :: tiled)
    ∧ (behavior ≠ "primary" →
        placeNewWindow behavior tiled win = tiled ++ [win]) := by
  constructor
  · intro hb
    subst hb
    simp only [placeNewWindow, trackerAdd, if_neg h, if_pos rfl,
      jsIndexOf_append_self tiled win h]
    cases tiled with
    | nil => simp
    | cons x rest =>
      have hpos : ((x :: rest).length : Int) > 0 := by
        exact_mod_cast Nat.succ_pos rest.length
      rw [if_pos hpos, Int.toNat_ofNat, eraseIdx_concat]
      simp
  · intro hb
    simp only [placeNewWindow, trackerAdd, if_neg h, if_neg hb]

/-- C10 witness: with one tracked window, a new window is prepended under
`"primary"` and appended under `"stack"`. -/
theorem c10_witness :
    sampleWin 0 ∉ [sampleWin 1] ∧
    placeNewWindow "primary" [sampleWin 1] (sampleWin 0) =
      sampleWin 0 :: [sampleWin 1] ∧
    placeNewWindow "stack" [sampleWin 1] (sampleWin 0) =
      [sampleWin 1] ++ [sampleWin 0] :=
  ⟨by decide,
   (c10_new_window_placement "primary" [sampleWin 1] (sampleWin 0)
     (by decide)).1 rfl,
   (c10_new_window_placement "stack" [sampleWin 1] (sampleWin 0)
     (by decide)).2 (by decide)⟩

/-- C3 counterexample: in a state with tiling enabled, respect-maximized
set, and a maximized non-minimized window in the active tiled list,
`tileNow()` still executes a layout pass (`_tileWindows` runs, incrementing
the execution count) — the maximized-window gate is checked by `queueTile`
only, contradicting the claim that both entry points perform no layout pass
in that state. -/
theorem c3_counterexample :
    maxGateState.tilingEnabled = true ∧
    maxGateState.respectMaximized = true ∧
    hasMaximizedWindows maxGateState = true ∧
    maxGateState.tileInProgress = false ∧
    (tileNowFn maxGateState).executedCount =
      maxGateState.executedCount + 1 := by decide

/-- C3 (amended): `queueTile` performs no layout pass and schedules no
timer when tiling is disabled or when respect-maximized is on and a
maximized non-minimized window is present (one such window suffices, via
`hasMaximizedWindows`); `tileNow` respects only the tiling-enabled gate
(plus the reentrancy flag): it executes a layout pass whenever tiling is
enabled and no retile is in progress, regardless of maximized windows. -/
theorem c3_amended_gates (s : TilerState) :
    (s.tilingEnabled = false → queueTileFn s = s ∧ tileNowFn s = s)
    ∧ ((s.respectMaximized && hasMaximizedWindows s) = true →
        queueTileFn s = s)
    ∧ (s.tilingEnabled = true → s.tileInProgress = false →
        (tileNowFn s).executedCount = s.executedCount + 1) := by
  refine ⟨fun he => ⟨?_, ?_⟩, fun hg => ?_, fun he hp => ?_⟩
  · simp [queueTileFn, he]
  · simp [tileNowFn, he]
  · simp [queueTileFn, hg]
  · simp [tileNowFn, he, hp]

/-- C3 witness: the amended gates evaluated at concrete states. -/
theorem c3_amended_witness :
    queueTileFn disabledState = disabledState ∧
    tileNowFn disabledState = disabledState ∧
    queueTileFn maxGateState = maxGateState ∧
    (tileNowFn idleState).executedCount = idleState.executedCount + 1 :=
  ⟨((c3_amended_gates disabledState).1 rfl).1,
   ((c3_amended_gates disabledState).1 rfl).2,
   (c3_amended_gates maxGateState).2.1 (by decide),
   (c3_amended_gates idleState).2.2 rfl rfl⟩

/-- C4 counterexample: from an idle enabled state, `queueTile()` schedules
a retile (timer pending, callback not yet run: nothing is executing), and
a subsequent `tileNow()` performs no layout pass — contradicting the claim
that a merely scheduled retile does not prevent `tileNow()`. -/
theorem c4_counterexample :
    (queueTileFn idleState).tileTimeoutId.isSome = true ∧
    (queueTileFn idleState).executing = 0 ∧
    (queueTileFn idleState).executedCount = 0 ∧
    (tileNowFn (queueTileFn idleState)).executedCount = 0 := by decide

/-- C4 (amended): `tileNow` executes the layout pass exactly when tiling is
enabled and the `_tileInProgress` flag is clear; since `queueTile` sets
that flag already at scheduling time (in every reachable state a pending
debounce timer implies the flag), a merely scheduled retile does prevent
`tileNow` from executing. -/
theorem c4_amended (s : TilerState) :
    ((tileNowFn s).executedCount =
      s.executedCount +
        (if (s.tilingEnabled && !s.tileInProgress) = true then 1 else 0))
    ∧ (TilerReachable s → s.tileTimeoutId.isSome = true →
        s.tileInProgress = true) := by
  constructor
  · by_cases he : s.tilingEnabled <;> by_cases hp : s.tileInProgress <;>
      simp [tileNowFn, he, hp]
  · exact fun hr => tilerFlagInv_reachable hr

/-- C4 witness: after one `queueTile()` from the initial state, a timer is
pending and the flag is set. -/
theorem c4_amended_witness :
    (queueTileFn idleState).tileInProgress = true ∧
    (tileNowFn idleState).executedCount =
      idleState.executedCount +
        (if (idleState.tilingEnabled && !idleState.tileInProgress) = true
         then 1 else 0) :=
  ⟨(c4_amended (queueTileFn idleState)).2
     (TilerReachable.step (TilerReachable.init true false [])
       (TilerStep.queue idleState)) (by decide),
   (c4_amended idleState).1⟩

/-- C5: for every N ≥ 1, N `queueTile()` calls within the debounce window
(from an idle gated-open state) followed by the timer firing yield exactly
one `_tileWindows` execution and exactly one scheduled timer (the later
calls are coalesced); and in every reachable scheduler state at most one
retile timer is pending and at most one layout pass is executing. -/
theorem c5_coalescing_and_uniqueness :
    (∀ (s : TilerState) (N : Nat), 1 ≤ N →
      s.tileInProgress = false → s.tileTimeoutId = none →
      s.tilingEnabled = true →
      (s.respectMaximized && hasMaximizedWindows s) = false →
      (tileFireEnd (tileFireStart (queueTileFn^[N] s))).executedCount =
          s.executedCount + 1
      ∧ (tileFireEnd (tileFireStart (queueTileFn^[N] s))).scheduledCount =
          s.scheduledCount + 1)
    ∧ (∀ s : TilerState, TilerReachable s →
        s.tilingTimers ≤ 1 ∧ s.executing ≤ 1) := by
  constructor
  · intro s N hN hp ht he hg
    obtain ⟨m, rfl⟩ : ∃ m, N = m + 1 := ⟨N - 1, by omega⟩
    rw [Function.iterate_succ_apply, queueTileFn_sched s hp ht he hg,
      Function.iterate_fixed (queueTileFn_fixed _ rfl)]
    constructor <;> simp [tileFireStart, tileFireEnd]
  · intro s hs
    have h := (tilerInv_reachable hs).1
    omega

/-- C5 witness: three queued calls from the initial idle state produce one
execution and one scheduled timer; the invariant holds at the initial
state. -/
theorem c5_witness :
    ((tileFireEnd (tileFireStart (queueTileFn^[3] idleState))).executedCount =
        idleState.executedCount + 1
     ∧ (tileFireEnd (tileFireStart (queueTileFn^[3] idleState))).scheduledCount =
        idleState.scheduledCount + 1)
    ∧ (idleState.tilingTimers ≤ 1 ∧ idleState.executing ≤ 1) :=
  ⟨c5_coalescing_and_uniqueness.1 idleState 3 (by decide) rfl rfl rfl
     (by decide),
   c5_coalescing_and_uniqueness.2 idleState
     (TilerReachable.init true false [])⟩

/-- C1 counterexample: the claimed partition is not universal.  With the
inner area 1920×1040 and the configured inner gap 10, fifteen windows drive
the deepest split's primary extent negative, and the pass emits the
inner-gap strip `(1914, 1031, 6, 10)`, which contains the pixel
`(1914, 1040)` lying outside the inner area — so the assigned rectangles
together with the configured inner-gap strips do not cover the inner area
exactly. -/
theorem c1_counterexample :
    (0:Int) ≤ 10 ∧ (List.range 15) ≠ [] ∧
    (⟨1914, 1031, 6, 10⟩ : Rect) ∈
      tileGaps 10 (List.range 15) ⟨0, 0, 1920, 1040⟩ ∧
    RectPt ⟨1914, 1031, 6, 10⟩ 1914 1040 ∧
    ¬ RectPt ⟨0, 0, 1920, 1040⟩ 1914 1040 ∧
    ¬ CoversExactly
        ((tileGeometry 10 (List.range 15) ⟨0, 0, 1920, 1040⟩).map Prod.snd ++
          tileGaps 10 (List.range 15) ⟨0, 0, 1920, 1040⟩)
        ⟨0, 0, 1920, 1040⟩ := by
  refine ⟨by decide, by decide, by decide, by decide, by decide, ?_⟩
  intro hcov
  have h := (hcov 1914 1040).mpr
    ⟨⟨1914, 1031, 6, 10⟩,
     List.mem_append.mpr (Or.inr (by decide)), by decide⟩
  exact absurd h (by decide)

/-- C1 (amended): under the fitting preconditions — nonnegative inner gap,
and every split (the top-level one and each recursive one) leaving room for
a nonnegative primary extent plus the gap — the rectangles assigned by a
layout pass are pairwise disjoint, each lies within the inner area, and
together with the inner-gap strips they cover the inner area exactly; a
single window is assigned the full inner area with no inner gap.  Without
the preconditions a too-deep split can emit a strip protruding outside the
inner area. -/
theorem c1_layout_partition {α : Type} (G : Int) (ws : List α) (inner : Rect)
    (hG : 0 ≤ G) (hne : ws ≠ [])
    (hfit : tileFitsB G ws.length inner = true) :
    List.Pairwise RectDisj ((tileGeometry G ws inner).map Prod.snd)
    ∧ (∀ r ∈ (tileGeometry G ws inner).map Prod.snd, RectSub r inner)
    ∧ CoversExactly
        ((tileGeometry G ws inner).map Prod.snd ++ tileGaps G ws inner) inner
    ∧ (∀ w : α, tileGeometry G [w] inner = [(w, inner)]) := by
  obtain ⟨hc, hsub, hpw⟩ := tileGeometry_partition G hG ws inner hne hfit
  refine ⟨?_, ?_, hc, fun w => rfl⟩
  · exact hpw.sublist (List.sublist_append_left _ _)
  · intro r hr
    exact hsub r (List.mem_append.mpr (Or.inl hr))

/-- C1 witness: three windows in a 1920×1040 inner area with inner gap 10
satisfy the fitting preconditions, so the amended partition properties hold
there. -/
theorem c1_witness :
    (0:Int) ≤ 10 ∧ ([0, 1, 2] : List Nat) ≠ [] ∧
    tileFitsB 10 ([0, 1, 2] : List Nat).length ⟨0, 0, 1920, 1040⟩ = true ∧
    (List.Pairwise RectDisj
        ((tileGeometry 10 ([0, 1, 2] : List Nat) ⟨0, 0, 1920, 1040⟩).map
          Prod.snd)
     ∧ (∀ r ∈ (tileGeometry 10 ([0, 1, 2] : List Nat)
          ⟨0, 0, 1920, 1040⟩).map Prod.snd, RectSub r ⟨0, 0, 1920, 1040⟩)
     ∧ CoversExactly
        ((tileGeometry 10 ([0, 1, 2] : List Nat) ⟨0, 0, 1920, 1040⟩).map
            Prod.snd ++ tileGaps 10 ([0, 1, 2] : List Nat)
            ⟨0, 0, 1920, 1040⟩) ⟨0, 0, 1920, 1040⟩
     ∧ (∀ w : Nat, tileGeometry 10 [w] ⟨0, 0, 1920, 1040⟩ =
          [(w, ⟨0, 0, 1920, 1040⟩)])) :=
  ⟨by decide, by decide, by decide,
   c1_layout_partition 10 [0, 1, 2] ⟨0, 0, 1920, 1040⟩ (by decide)
     (by decide) (by decide)⟩

/-- C2 counterexample: on an inner area taller than wide (100×200) with two
windows, the top-level split of `_tileWindows` still gives the primary the
left half `(0,0,50,200)`, not the top half `(0,0,100,100)` that splitting
the longer axis would give — the claim that the orientation is re-derived
at every split "including the top-level split" is false. -/
theorem c2_counterexample :
    (⟨0, 0, 100, 200⟩ : Rect).h > (⟨0, 0, 100, 200⟩ : Rect).w ∧
    tileGeometry 0 ([0, 1] : List Nat) ⟨0, 0, 100, 200⟩ =
      [(0, ⟨0, 0, 50, 200⟩), (1, ⟨50, 0, 50, 200⟩)] ∧
    (⟨0, 0, 50, 200⟩ : Rect) ≠ ⟨0, 0, 100, 100⟩ := by decide

/-- C2 (amended): within `_splitLayout` every split derives its orientation
from the current sub-area (left half of width `floor(w/2) - floor(G/2)`
when wider than tall, top half of height `floor(h/2) - floor(G/2)`
otherwise) and the remaining windows recurse on the complement beyond the
inner gap; the top-level split performed by `_tileWindows` on the inner
area, however, is always horizontal, regardless of the inner area's aspect
ratio. -/
theorem c2_amended_split_orientation {α : Type} (G : Int) (w v : α)
    (rest : List α) (a inner : Rect) :
    (splitLayout G (w :: v :: rest) a =
      (w, (splitAreas G a).1) ::
        splitLayout G (v :: rest) (splitAreas G a).2.2)
    ∧ (a.w > a.h →
        splitAreas G a = (⟨a.x, a.y, Int.fdiv a.w 2 - Int.fdiv G 2, a.h⟩,
          ⟨a.x + (Int.fdiv a.w 2 - Int.fdiv G 2), a.y, G, a.h⟩,
          ⟨a.x + (Int.fdiv a.w 2 - Int.fdiv G 2) + G, a.y,
           a.w - (Int.fdiv a.w 2 - Int.fdiv G 2) - G, a.h⟩))
    ∧ (¬(a.w > a.h) →
        splitAreas G a = (⟨a.x, a.y, a.w, Int.fdiv a.h 2 - Int.fdiv G 2⟩,
          ⟨a.x, a.y + (Int.fdiv a.h 2 - Int.fdiv G 2), a.w, G⟩,
          ⟨a.x, a.y + (Int.fdiv a.h 2 - Int.fdiv G 2) + G, a.w,
           a.h - (Int.fdiv a.h 2 - Int.fdiv G 2) - G⟩))
    ∧ (tileGeometry G (w :: v :: rest) inner =
        (w, ⟨inner.x, inner.y, Int.fdiv inner.w 2 - Int.fdiv G 2,
             inner.h⟩) ::
          splitLayout G (v :: rest)
            ⟨inner.x + (Int.fdiv inner.w 2 - Int.fdiv G 2) + G, inner.y,
             inner.w - (Int.fdiv inner.w 2 - Int.fdiv G 2) - G,
             inner.h⟩) := by
  refine ⟨rfl, ?_, ?_, rfl⟩
  · intro hwh; simp only [splitAreas, if_pos hwh]
  · intro hwh; simp only [splitAreas, if_neg hwh]

/-- C2 witness: the amended orientation rule evaluated on a wider-than-tall
and on a taller-than-wide area. -/
theorem c2_amended_witness :
    ((⟨0, 0, 4, 3⟩ : Rect).w > (⟨0, 0, 4, 3⟩ : Rect).h ∧
      splitAreas 0 ⟨0, 0, 4, 3⟩ =
        (⟨0, 0, Int.fdiv 4 2 - Int.fdiv 0 2, 3⟩,
         ⟨0 + (Int.fdiv 4 2 - Int.fdiv 0 2), 0, 0, 3⟩,
         ⟨0 + (Int.fdiv 4 2 - Int.fdiv 0 2) + 0, 0,
          4 - (Int.fdiv 4 2 - Int.fdiv 0 2) - 0, 3⟩))
    ∧ (¬((⟨0, 0, 3, 4⟩ : Rect).w > (⟨0, 0, 3, 4⟩ : Rect).h) ∧
      splitAreas 0 ⟨0, 0, 3, 4⟩ =
        (⟨0, 0, 3, Int.fdiv 4 2 - Int.fdiv 0 2⟩,
         ⟨0, 0 + (Int.fdiv 4 2 - Int.fdiv 0 2), 3, 0⟩,
         ⟨0, 0 + (Int.fdiv 4 2 - Int.fdiv 0 2) + 0, 3,
          4 - (Int.fdiv 4 2 - Int.fdiv 0 2) - 0⟩)) :=
  ⟨⟨by decide,
    (c2_amended_split_orientation 0 0 1 ([] : List Nat) ⟨0, 0, 4, 3⟩
      ⟨0, 0, 4, 3⟩).2.1 (by decide)⟩,
   ⟨by decide,
    (c2_amended_split_orientation 0 0 1 ([] : List Nat) ⟨0, 0, 3, 4⟩
      ⟨0, 0, 3, 4⟩).2.2.1 (by decide)⟩⟩

lemma waitForWindowReady_attempt_le (obs : Nat → MWindow) (m : Nat) :
    (waitForWindowReady obs m).attempt ≤ m := by
  unfold waitForWindowReady
  split
  · simp [PollOutcome.attempt]
  · have := pollLoop_attempt_le obs m m 0
    omega

lemma waitForWindowReady_invoked (obs : Nat → MWindow) (m k : Nat)
    (h : waitForWindowReady obs m = PollOutcome.invoked k) :
    isWindowReady (obs k) = true ∧
    ∀ j, 1 ≤ j → j < k →
      (obs j).hasDisplay = true ∧ isWindowReady (obs j) = false := by
  unfold waitForWindowReady at h
  split at h
  · next hr =>
    have hk : (0:Nat) = k := PollOutcome.invoked.inj h
    subst hk
    exact ⟨hr, fun j hj1 hj2 => absurd (Nat.lt_of_le_of_lt hj1 hj2)
      (by omega)⟩
  · exact pollLoop_invoked_spec obs m m 0 k h

/-- C6: a window whose class or app identifier matches the exception set is
never assigned a geometry by the layout pass (hence by any number of
passes): the exception recheck removes it from the tiled list before
geometry, and a live such window ends up in the exceptions list. -/
theorem c6_exception_never_in_layout (S : PassSettings) (exc : List String)
    (G : Int) (inner : Rect) (tiled exceptionsList : List MWindow)
    (w : MWindow) (hw : isException exc w = true) :
    w ∉ ((tileWindowsPass S exc G inner tiled exceptionsList).2.2.2).map
        Prod.fst
    ∧ w ∉ (tileWindowsPass S exc G inner tiled exceptionsList).1
    ∧ (w ∈ tiled → w.hasDisplay = true →
        w ∈ (tileWindowsPass S exc G inner tiled exceptionsList).2.1) := by
  have hnt := recheck_not_mem_tiled S exc tiled exceptionsList w hw
  refine ⟨?_, hnt, ?_⟩
  · rw [show ((tileWindowsPass S exc G inner tiled exceptionsList).2.2.2) =
      tileGeometry G ((recheckExceptions S exc tiled
        exceptionsList).1.filter tileWindowsFilter) inner from rfl,
      tileGeometry_fst]
    intro hmem
    exact hnt (List.mem_of_mem_filter hmem)
  · intro hmem hv
    exact recheck_fold_mem_snd S exc w hv hw tiled
      (tiled, exceptionsList, []) (Or.inl hmem)

/-- C6 witness: a tracked Firefox window against the exception set
`["firefox"]` is excluded from geometry, removed from the tiled list and
placed on the exceptions list. -/
theorem c6_witness :
    isException ["firefox"] firefoxWin = true ∧
    firefoxWin ∉ ((tileWindowsPass allOnSettings ["firefox"] 0
        ⟨0, 0, 800, 600⟩ [firefoxWin, sampleWin 0] []).2.2.2).map Prod.fst ∧
    firefoxWin ∉ (tileWindowsPass allOnSettings ["firefox"] 0
        ⟨0, 0, 800, 600⟩ [firefoxWin, sampleWin 0] []).1 ∧
    firefoxWin ∈ (tileWindowsPass allOnSettings ["firefox"] 0
        ⟨0, 0, 800, 600⟩ [firefoxWin, sampleWin 0] []).2.1 :=
  ⟨by decide,
   (c6_exception_never_in_layout allOnSettings ["firefox"] 0
     ⟨0, 0, 800, 600⟩ [firefoxWin, sampleWin 0] [] firefoxWin
     (by decide)).1,
   (c6_exception_never_in_layout allOnSettings ["firefox"] 0
     ⟨0, 0, 800, 600⟩ [firefoxWin, sampleWin 0] [] firefoxWin
     (by decide)).2.1,
   (c6_exception_never_in_layout allOnSettings ["firefox"] 0
     ⟨0, 0, 800, 600⟩ [firefoxWin, sampleWin 0] [] firefoxWin
     (by decide)).2.2 (by decide) (by decide)⟩

/-- C7 counterexample: a live window with `skip_taskbar` set fails the
tileable test but matches no exception; the pass leaves it in the tiled
list, the exceptions list stays empty, and it is assigned the full inner
area — contradicting the claim that every window now failing the tileable
test is moved to the exceptions list and given exception treatment. -/
theorem c7_counterexample :
    isTileable [] skipWin = false ∧ skipWin.hasDisplay = true ∧
    tileWindowsPass allOnSettings [] 0 ⟨0, 0, 800, 600⟩ [skipWin] [] =
      ([skipWin], [], [], [(skipWin, ⟨0, 0, 800, 600⟩)]) := by decide

/-- C7 (amended): at tiling time only the exception test is re-evaluated: a
live tracked window matching the exception set is moved from the tiled to
the exceptions list (and queued for the centering path when the settings
call for it), while a live tracked window not matching the exception set
stays in the tiled list regardless of the tileable test and is assigned a
geometry iff it passes the filter (monitor index nonnegative and not
minimized). -/
theorem c7_amended_recheck (S : PassSettings) (exc : List String) (G : Int)
    (inner : Rect) (tiled exceptionsList : List MWindow) (w : MWindow)
    (hmem : w ∈ tiled) (hv : w.hasDisplay = true) :
    (isException exc w = true →
      w ∉ (tileWindowsPass S exc G inner tiled exceptionsList).1
      ∧ w ∈ (tileWindowsPass S exc G inner tiled exceptionsList).2.1
      ∧ ((S.tilingEnabled &&
            (S.exceptionsAlwaysCenter || S.exceptionsAlwaysOnTop)) = true →
          w ∈ (tileWindowsPass S exc G inner tiled exceptionsList).2.2.1))
    ∧ (isException exc w = false →
      w ∈ (tileWindowsPass S exc G inner tiled exceptionsList).1
      ∧ (w ∈ ((tileWindowsPass S exc G inner tiled
            exceptionsList).2.2.2).map Prod.fst ↔
          (0 ≤ w.monitor ∧ w.minimized = false))) := by
  constructor
  · intro hw
    refine ⟨recheck_not_mem_tiled S exc tiled exceptionsList w hw,
      recheck_fold_mem_snd S exc w hv hw tiled (tiled, exceptionsList, [])
        (Or.inl hmem), ?_⟩
    intro hset
    exact recheck_fold_mem_c S exc w hv hw hset tiled
      (tiled, exceptionsList, []) (Or.inl hmem)
  · intro hw
    have hkeep := recheck_mem_tiled_keep S exc tiled exceptionsList w hv hw
      hmem
    refine ⟨hkeep, ?_⟩
    rw [show ((tileWindowsPass S exc G inner tiled exceptionsList).2.2.2) =
      tileGeometry G ((recheckExceptions S exc tiled
        exceptionsList).1.filter tileWindowsFilter) inner from rfl,
      tileGeometry_fst, List.mem_filter]
    constructor
    · rintro ⟨_, hf⟩
      simp only [tileWindowsFilter, hv, Bool.true_and, Bool.and_eq_true,
        decide_eq_true_eq, Bool.not_eq_true'] at hf
      exact hf
    · rintro ⟨hm, hmin⟩
      refine ⟨hkeep, ?_⟩
      simp only [tileWindowsFilter, hv, Bool.true_and, Bool.and_eq_true,
        decide_eq_true_eq, Bool.not_eq_true']
      exact ⟨hm, hmin⟩

/-- C7 witness: the amended recheck evaluated on a live skip-taskbar window
(not moved, still tiled) and a live Firefox exception window (moved and
centered). -/
theorem c7_amended_witness :
    (skipWin ∈ (tileWindowsPass allOnSettings [] 0 ⟨0, 0, 800, 600⟩
        [skipWin] []).1
     ∧ (skipWin ∈ ((tileWindowsPass allOnSettings [] 0 ⟨0, 0, 800, 600⟩
          [skipWin] []).2.2.2).map Prod.fst ↔
        (0 ≤ skipWin.monitor ∧ skipWin.minimized = false)))
    ∧ (firefoxWin ∉ (tileWindowsPass allOnSettings ["firefox"] 0
        ⟨0, 0, 800, 600⟩ [firefoxWin] []).1
       ∧ firefoxWin ∈ (tileWindowsPass allOnSettings ["firefox"] 0
          ⟨0, 0, 800, 600⟩ [firefoxWin] []).2.1
       ∧ firefoxWin ∈ (tileWindowsPass allOnSettings ["firefox"] 0
          ⟨0, 0, 800, 600⟩ [firefoxWin] []).2.2.1) :=
  ⟨(c7_amended_recheck allOnSettings [] 0 ⟨0, 0, 800, 600⟩ [skipWin] []
      skipWin (by decide) (by decide)).2 (by decide),
   ⟨((c7_amended_recheck allOnSettings ["firefox"] 0 ⟨0, 0, 800, 600⟩
       [firefoxWin] [] firefoxWin (by decide) (by decide)).1
       (by decide)).1,
    ((c7_amended_recheck allOnSettings ["firefox"] 0 ⟨0, 0, 800, 600⟩
       [firefoxWin] [] firefoxWin (by decide) (by decide)).1
       (by decide)).2.1,
    ((c7_amended_recheck allOnSettings ["firefox"] 0 ⟨0, 0, 800, 600⟩
       [firefoxWin] [] firefoxWin (by decide) (by decide)).1
       (by decide)).2.2 (by decide)⟩⟩

/-- C8: the readiness poll performs at most `maxAttempts` checks (the
default bound is 20 attempts at a fixed 50 ms interval), the classification
callback runs at most once and only on an observation that is ready (valid
display, non-zero frame, non-empty class, compositor handle), the window
was alive and not ready at every earlier polled observation (a destroyed
window abandons the poll), uniform non-readiness within the bound means the
callback never runs, and starting a poll cancels the prior pending timer so
at most one ready-poll timer per window is outstanding. -/
theorem c8_ready_poll (obs : Nat → MWindow) (maxAttempts : Nat)
    (pending : List Nat) (stored : Option Nat) (alreadyReady : Bool)
    (fresh : Nat) (hpend : pending = stored.toList) :
    (waitForWindowReady obs maxAttempts).attempt ≤ maxAttempts
    ∧ (waitForWindowReady obs maxAttempts).invocations ≤ 1
    ∧ (∀ k, waitForWindowReady obs maxAttempts = PollOutcome.invoked k →
        isWindowReady (obs k) = true ∧
        ∀ j, 1 ≤ j → j < k →
          (obs j).hasDisplay = true ∧ isWindowReady (obs j) = false)
    ∧ ((∀ k, k ≤ maxAttempts → isWindowReady (obs k) = false) →
        (waitForWindowReady obs maxAttempts).invocations = 0)
    ∧ (startReadyPoll pending stored alreadyReady fresh).1.length ≤ 1
    ∧ READY_MAX_ATTEMPTS = 20 ∧ READY_POLL_INTERVAL_MS = 50 := by
  refine ⟨waitForWindowReady_attempt_le obs maxAttempts, ?_, ?_, ?_, ?_,
    rfl, rfl⟩
  · rcases waitForWindowReady obs maxAttempts with k | k | k <;>
      simp [PollOutcome.invocations]
  · exact fun k h => waitForWindowReady_invoked obs maxAttempts k h
  · intro hall
    cases hout : waitForWindowReady obs maxAttempts with
    | invoked k =>
      exfalso
      have hready := (waitForWindowReady_invoked obs maxAttempts k hout).1
      have hk : k ≤ maxAttempts := by
        have := waitForWindowReady_attempt_le obs maxAttempts
        rw [hout] at this
        exact this
      rw [hall k hk] at hready
      exact absurd hready (by simp)
    | droppedDestroyed k => rfl
    | droppedTimeout k => rfl
  · subst hpend
    cases stored with
    | none =>
      cases alreadyReady <;>
        simp [startReadyPoll, cancelPriorReadyTimer, Option.toList]
    | some tid =>
      cases alreadyReady <;>
        simp [startReadyPoll, cancelPriorReadyTimer, Option.toList]

/-- C8 witness: an immediately ready window invokes the callback once with
zero further polls, and a fresh poll over an empty pending set leaves at
most one timer. -/
theorem c8_witness :
    ((waitForWindowReady (fun _ => sampleWin 0)
        READY_MAX_ATTEMPTS).invocations ≤ 1)
    ∧ (startReadyPoll [] none true 0).1.length ≤ 1
    ∧ READY_MAX_ATTEMPTS = 20 :=
  ⟨(c8_ready_poll (fun _ => sampleWin 0) READY_MAX_ATTEMPTS [] none true 0
      rfl).2.1,
   (c8_ready_poll (fun _ => sampleWin 0) READY_MAX_ATTEMPTS [] none true 0
      rfl).2.2.2.2.1,
   (c8_ready_poll (fun _ => sampleWin 0) READY_MAX_ATTEMPTS [] none true 0
      rfl).2.2.2.2.2.1⟩

end SimpleTiling
